/-
Verification of the ADRVE edge/cloud pipeline against its specification.

Shallow embedding of the Python sources:
  * edge-device-headless.py        (command listener, frame queue, YOLO
                                    filter, rate limiting, MQTT publisher)
  * edge-device-script.py          (command listener, display-loop pruning
                                    of cloud commands)
  * edge-device-video-file-fixed.py (MQTT publisher variant)
  * kvs_to_bedrock_final.py        (cloud fusion: Bedrock response parsing,
                                    stop policy, persistence)

Machine floats of the source are modelled as exact rationals (ℚ); Python
ints as ℤ/ℕ; Python dicts as insertion-ordered association lists with
the update-in-place-or-append semantics of CPython dicts.
-/
import Mathlib

namespace ADRVE

/-! ## Python dict model

CPython dicts preserve insertion order; assigning to an existing key
updates the value in place, a new key is appended at the end. -/

def dictInsert {α : Type} [DecidableEq α] {β : Type} :
    List (α × β) → α → β → List (α × β)
  | [], k, v => [(k, v)]
  | (k0, v0) :: rest, k, v =>
    if k0 = k then (k, v) :: rest else (k0, v0) :: dictInsert rest k v

def dictGet {α : Type} [DecidableEq α] {β : Type} :
    List (α × β) → α → Option β
  | [], _ => none
  | (k0, v0) :: rest, k => if k0 = k then some v0 else dictGet rest k

theorem dictGet_dictInsert {α : Type} [DecidableEq α] {β : Type}
    (m : List (α × β)) (k k2 : α) (v : β) :
    dictGet (dictInsert m k v) k2 = if k2 = k then some v else dictGet m k2 := by
  induction m with
  | nil =>
    by_cases h : k2 = k
    · simp [dictInsert, dictGet, h]
    · have h2 : ¬k = k2 := fun hk => h hk.symm
      simp [dictInsert, dictGet, h, h2]
  | cons kv rest ih =>
    obtain ⟨k0, v0⟩ := kv
    by_cases h0 : k0 = k
    · subst h0
      by_cases h2 : k2 = k0
      · simp [dictInsert, dictGet, h2]
      · have h20 : ¬k0 = k2 := fun hk => h2 hk.symm
        simp [dictInsert, dictGet, h2, h20]
    · by_cases h2 : k2 = k
      · subst h2
        have h02 : ¬k0 = k2 := h0
        simp [dictInsert, dictGet, h0, h02, ih]
      · by_cases h20 : k0 = k2 <;>
          simp [dictInsert, dictGet, h0, h20, ih, h2]

/-! ## Command listener (edge-device-headless.py, `command_callback`)

```python
payload = json.loads(message.payload.decode('utf-8'))
command = payload.get('command')
timestamp = payload.get('timestamp', time.time())
cloud_commands[timestamp] = payload
```

The payload is a decoded JSON dict; the fields the listener reads are
modelled as optional fields.  `cloud_commands` is the module-global dict
keyed by timestamp; it is the only state the listener mutates. -/

structure CmdPayload where
  command? : Option String
  timestamp? : Option ℚ
  reason? : Option String
deriving DecidableEq, Repr

abbrev CloudCommands := List (ℚ × CmdPayload)

/-- `command_callback` of edge-device-headless.py: store the payload in
`cloud_commands` keyed by its timestamp, defaulting to the current wall
clock `now` (`time.time()`) when the field is absent. -/
def command_callback (now : ℚ) (cmds : CloudCommands) (payload : CmdPayload) :
    CloudCommands :=
  dictInsert cmds (payload.timestamp?.getD now) payload

/-! ## Display-loop pruning (edge-device-script.py, `capture_video`)

```python
for ts, cmd in list(cloud_commands.items()):
    if time.time() - ts < 3:
        ... display ...
    else:
        cloud_commands.pop(ts, None)
```

Entries at least 3 seconds old are removed; `now` models the
`time.time()` call. -/

def prune_commands (now : ℚ) (cmds : CloudCommands) : CloudCommands :=
  cmds.filter (fun e => now - e.1 < 3)

/-- A stop command is present in the command store. -/
def hasStop (cmds : CloudCommands) : Bool :=
  cmds.any (fun e => e.2.command? = some "stop")

/-! ## Frame buffer (edge-device-headless.py)

```python
frame_queue = queue.Queue(maxsize=10)          # line 87
...
if not frame_queue.full():                      # capture_video_thread
    frame_queue.put((frame.copy(), timestamp))
else:
    pass                                        # frame dropped
...
frame_data = frame_queue.get()                  # yolo_detection_thread
```

`queue.Queue` is a FIFO list bounded by `maxsize`.  The producer offers
without blocking (skips the frame when full); the single consumer takes
the oldest element.  We model the interleaving of the two threads as a
trace of operations against the queue. -/

inductive BufOp (α : Type)
  | off (f : α)
  | tk
deriving Repr

/-- Queue state, instrumented with the history of taken frames and of
accepted (not dropped) offers. -/
structure BufState (α : Type) where
  buf : List α
  taken : List α
  accepted : List α
deriving Repr

/-- One queue operation.  An offer appends only when the queue holds
fewer than `N` frames (`not frame_queue.full()`), otherwise the frame is
dropped and the state is unchanged; the producer never blocks.  A take
removes the oldest frame; on an empty queue `get()` blocks, i.e. nothing
happens until a later offer. -/
def bufStep {α : Type} (N : ℕ) (s : BufState α) : BufOp α → BufState α
  | .off f =>
    if s.buf.length < N then ⟨s.buf ++ [f], s.taken, s.accepted ++ [f]⟩
    else s
  | .tk =>
    match s.buf with
    | [] => s
    | f :: rest => ⟨rest, s.taken ++ [f], s.accepted⟩

def bufRunFrom {α : Type} (N : ℕ) (s : BufState α) (ops : List (BufOp α)) :
    BufState α :=
  ops.foldl (bufStep N) s

def bufRun {α : Type} (N : ℕ) (ops : List (BufOp α)) : BufState α :=
  bufRunFrom N ⟨[], [], []⟩ ops

/-- Frames carried by the offer operations of a trace, in trace order. -/
def offeredOf {α : Type} : List (BufOp α) → List α
  | [] => []
  | .off f :: rest => f :: offeredOf rest
  | .tk :: rest => offeredOf rest

/-! ## YOLO detection filter (edge-device-headless.py, `yolo_detection_thread`)

```python
CONFIDENCE_THRESHOLD = 0.3
CLASSES_OF_INTEREST = [0, 1, 2, 3, 5, 6, 7, 16, 17, 18]
...
detections = []
for r in results:
    boxes = r.boxes
    for box in boxes:
        x1, y1, x2, y2 = box.xyxy[0]
        conf = float(box.conf[0])
        cls = int(box.cls[0])
        if cls in CLASSES_OF_INTEREST and conf > CONFIDENCE_THRESHOLD:
            class_name = model.names[cls]
            detection = {"box": [...], "class": class_name,
                         "class_id": cls, "confidence": conf}
            detections.append(detection)
```

The raw boxes returned by the model (an external collaborator) are the
input; `names` models `model.names`. -/

def CONFIDENCE_THRESHOLD : ℚ := 3 / 10

def CLASSES_OF_INTEREST : List ℕ := [0, 1, 2, 3, 5, 6, 7, 16, 17, 18]

structure RawBox where
  box : List ℚ
  conf : ℚ
  cls : ℕ
deriving DecidableEq, Repr

structure EdgeDetection where
  box : List ℚ
  class_name : String
  class_id : ℕ
  confidence : ℚ
deriving DecidableEq, Repr

def mkDetection (names : ℕ → String) (b : RawBox) : EdgeDetection :=
  ⟨b.box, names b.cls, b.cls, b.conf⟩

/-- The inner filtering loop of `yolo_detection_thread`. -/
def buildDetections (names : ℕ → String) (raw : List RawBox) :
    List EdgeDetection :=
  raw.foldl
    (fun acc b =>
      if b.cls ∈ CLASSES_OF_INTEREST ∧ CONFIDENCE_THRESHOLD < b.conf then
        acc ++ [mkDetection names b]
      else acc)
    []

/-! ## YOLO rate limiting (edge-device-headless.py, `yolo_detection_thread`)

```python
YOLO_PROCESSING_INTERVAL = 0.2
last_yolo_process_time = 0
while running:
    current_time = time.time()
    if current_time - last_yolo_process_time >= YOLO_PROCESSING_INTERVAL:
        if not frame_queue.empty():
            ... run model, set latest_detection ...
            last_yolo_process_time = current_time
    time.sleep(0.01)
```

Each loop iteration is modelled by the pair
(`current_time`, whether the frame queue yields a frame); the result is
the list of times at which a DetectionBatch was emitted. -/

def yoloEmissions (interval : ℚ) : ℚ → List (ℚ × Bool) → List ℚ
  | _, [] => []
  | last, (t, hasFrame) :: rest =>
    if interval ≤ t - last ∧ hasFrame then t :: yoloEmissions interval t rest
    else yoloEmissions interval last rest

/-! ## Telemetry publisher (edge-device-headless.py, `mqtt_publish_thread`)

```python
MQTT_PUBLISH_INTERVAL = 1.0
while running:
    current_time = time.time()
    if current_time - last_mqtt_publish_time >= MQTT_PUBLISH_INTERVAL:
        if latest_detection is not None:
            client.publish(topic, json.dumps(latest_detection), 0)
            last_mqtt_publish_time = current_time
    time.sleep(0.1)
```

One tick of the loop, over the latest-value slot `latest_detection`;
the result is the list of publish calls made during the tick together
with the updated `last_mqtt_publish_time`. -/

structure DetectionBatch where
  timestamp : ℚ
  detections : List EdgeDetection
  source : String
deriving DecidableEq, Repr

def mqttTickHeadless (lastPub now : ℚ) (latest : Option DetectionBatch) :
    List DetectionBatch × ℚ :=
  if 1 ≤ now - lastPub then
    match latest with
    | some b => ([b], now)
    | none => ([], lastPub)
  else ([], lastPub)

/-! ## Telemetry publisher (edge-device-video-file-fixed.py, `mqtt_publish_thread`)

```python
if current_time - last_mqtt_publish_time >= MQTT_PUBLISH_INTERVAL:
    if not detection_queue.empty():
        _, detection_data = detection_queue.get()
        ... client.publish(topic, json.dumps(detection_data), 0) ...
        last_mqtt_publish_time = current_time
    else:
        # No detections to publish
        if int(current_time) % 5 == 0:
            print("No detections to publish - queue is empty")
        _, detection_data = detection_queue.get()
        client.publish(topic, json.dumps(detection_data), 0)
        last_mqtt_publish_time = current_time
```

The else branch, kept by the self-patching script that generated this
file, still calls the blocking `detection_queue.get()` and publishes
whatever batch arrives next.  `queued` is the content of
`detection_queue` at the tick; `arrivals` are the batches a concurrent
producer would deliver afterwards, which a blocking `get()` on an empty
queue waits for (when `arrivals` is empty the thread blocks forever and
the tick never completes; that case is modelled as no publish). -/

def mqttTickFileFixed (lastPub now : ℚ) (queued arrivals : List DetectionBatch) :
    List DetectionBatch × ℚ :=
  if 1 ≤ now - lastPub then
    match queued with
    | b :: _ => ([b], now)
    | [] =>
      match arrivals with
      | b :: _ => ([b], now)
      | [] => ([], lastPub)
  else ([], lastPub)

/-! ## JSON values

Decoded JSON as produced by `json.loads`; numbers are exact rationals.
A Python dict is an insertion-ordered association list. -/

inductive JVal : Type where
  | jnull : JVal
  | jb : Bool → JVal
  | jnum : ℚ → JVal
  | jstr : String → JVal
  | jarr : List JVal → JVal
  | jobj : List (String × JVal) → JVal

abbrev JDict := List (String × JVal)

def emptyObjects : JVal := JVal.jobj [("objects", JVal.jarr [])]

/-! ## Bedrock response parsing (kvs_to_bedrock_final.py, `detect_objects_with_bedrock`)

```python
json_start = content.find('{')
json_end = content.rfind('}') + 1
if json_start >= 0 and json_end > json_start:
    json_content = content[json_start:json_end]
    try:
        detection_data = json.loads(json_content)
        return detection_data
    except json.JSONDecodeError:
        return {"objects": []}
else:
    return {"objects": []}
```

The model response `content` is a character list; `parse` models
`json.loads` on the extracted slice (an external library call), `none`
standing for a `JSONDecodeError`. -/

/-- Python `str.find`: index of the first occurrence, or none. -/
def findFirst (c : Char) : List Char → Option ℕ
  | [] => none
  | x :: xs => if x = c then some 0 else (findFirst c xs).map (· + 1)

/-- Python `str.rfind`: index of the last occurrence, or none. -/
def findLast (c : Char) (cs : List Char) : Option ℕ :=
  (findFirst c cs.reverse).map (fun i => cs.length - 1 - i)

/-- Python slice `content[json_start:json_end]`. -/
def pySlice (cs : List Char) (s e : ℕ) : List Char :=
  (cs.drop s).take (e - s)

/-- The parsing tail of `detect_objects_with_bedrock`. -/
def detect_objects_parse (parse : List Char → Option JVal) (content : List Char) :
    JVal :=
  match findFirst '{' content, findLast '}' content with
  | some s, some l =>
    if s < l + 1 then
      match parse (pySlice content s (l + 1)) with
      | some j => j
      | none => emptyObjects
    else emptyObjects
  | some _, none => emptyObjects
  | none, _ => emptyObjects

/-! ## Stop policy (kvs_to_bedrock_final.py, `send_command_to_edge`)

```python
should_stop = False
critical_objects = []
for obj in detection_data.get('objects', []):
    object_type = obj.get('type', '').lower()
    confidence = obj.get('confidence', 0)
    if (object_type in ['human', 'person', 'pedestrian', 'animal', 'dog', 'cat']) \
            and confidence > 0.7:
        should_stop = True
        critical_objects.append(object_type)
if should_stop:
    command = {'command': 'stop',
               'reason': f"Critical objects detected: {', '.join(critical_objects)}",
               'timestamp': int(time.time())}
    iot_client.publish(...)
    return True
return False
```

A returned object is a JSON dict with optional `type` and `confidence`
fields (`obj.get` with defaults). -/

structure DetObject where
  type? : Option String
  confidence? : Option ℚ
deriving DecidableEq, Repr

def objTypeLower (o : DetObject) : String := (o.type?.getD "").toLower

def objConf (o : DetObject) : ℚ := o.confidence?.getD 0

def criticalSet : List String :=
  ["human", "person", "pedestrian", "animal", "dog", "cat"]

/-- Condition of the loop body: critical type and confidence above 0.7. -/
def isCriticalObj (o : DetObject) : Prop :=
  objTypeLower o ∈ criticalSet ∧ 7 / 10 < objConf o

instance (o : DetObject) : Decidable (isCriticalObj o) := by
  unfold isCriticalObj; infer_instance

/-- The accumulation loop: `(should_stop, critical_objects)`. -/
def criticalScan (objs : List DetObject) : Bool × List String :=
  objs.foldl
    (fun acc o =>
      if isCriticalObj o then (true, acc.2 ++ [objTypeLower o]) else acc)
    (false, [])

structure Command where
  command : String
  reason : String
  timestamp : ℤ
deriving DecidableEq, Repr

/-- `send_command_to_edge`: the published stop command, or none.  `now`
models `time.time()` at command creation; `(criticalScan objs).1` is
`should_stop` and `(criticalScan objs).2` is `critical_objects`. -/
def send_command_to_edge (objs : List DetObject) (now : ℤ) : Option Command :=
  if (criticalScan objs).1 then
    some ⟨"stop",
          "Critical objects detected: " ++
            String.intercalate ", " (criticalScan objs).2,
          now⟩
  else none

/-! ## Persistence (kvs_to_bedrock_final.py, `store_frame_and_detection`)

```python
frame_id = str(uuid.uuid4())
frame_key = f"frames/{datetime.utcfromtimestamp(timestamp).strftime('%Y/%m/%d/%H')}/" + \
            f"{timestamp}_{frame_id}.jpg"
s3_client.put_object(Bucket=BUCKET_NAME, Key=frame_key, Body=image_data, ...)
detection_data['timestamp'] = int(timestamp)
detection_data['source'] = 'cloud'
detection_data_decimal = json.loads(json.dumps(detection_data), parse_float=Decimal)
item = {'frameId': frame_id,
        'timestamp': int(timestamp),
        'frameS3Path': frame_key,
        'detectionResults': detection_data_decimal,
        'ttl': int(timestamp) + (7 * 24 * 60 * 60)}
table.put_item(Item=item)
```

`uuid.uuid4()` and `strftime` are external: the fresh identifier
`frame_id` and the formatted hour path `hourPath` are parameters.  With
numbers modelled as exact rationals, the Decimal round-trip
(`json.loads(json.dumps(x), parse_float=Decimal)`, which replaces every
float by an exact decimal of its printed form) preserves every value
exactly, so `detection_data_decimal` is `detection_data` itself. -/

def pyInt (q : ℚ) : ℤ := if 0 ≤ q then ⌊q⌋ else -⌊-q⌋

structure S3Put where
  bucket : String
  key : String
deriving DecidableEq, Repr

structure DynamoItem where
  frameId : String
  timestamp : ℤ
  frameS3Path : String
  detectionResults : JDict
  ttl : ℤ

def BUCKET_NAME : String := "adrve-video-frames-056689112963"

def frameKeyOf (hourPath : String) (ts : ℚ) (frame_id : String) : String :=
  "frames/" ++ hourPath ++ "/" ++ toString ts ++ "_" ++ frame_id ++ ".jpg"

/-- `store_frame_and_detection`: the S3 put and the DynamoDB item. -/
def store_frame_and_detection (frame_id hourPath : String)
    (detection_data : JDict) (ts : ℚ) : S3Put × DynamoItem :=
  let frame_key := frameKeyOf hourPath ts frame_id
  let withMeta :=
    dictInsert (dictInsert detection_data "timestamp" (JVal.jnum (pyInt ts)))
      "source" (JVal.jstr "cloud")
  (⟨BUCKET_NAME, frame_key⟩,
   ⟨frame_id, pyInt ts, frame_key, withMeta, pyInt ts + 7 * 24 * 60 * 60⟩)

/-- One iteration of `main`'s processing of a frame: persist first, then
decide the command; both always run, in this order. -/
def process_frame (frame_id hourPath : String) (detection_data : JDict)
    (objs : List DetObject) (ts : ℚ) (now : ℤ) :
    (S3Put × DynamoItem) × Option Command :=
  (store_frame_and_detection frame_id hourPath detection_data ts,
   send_command_to_edge objs now)

/-! ## Concrete sample data

The §8 scenario of the spec: a model response with prose around one
JSON object.  Braces are written with hex escapes. -/

def samplePre : List Char := "detected a person ".toList

def sampleBody : List Char :=
  "\x7b\"objects\":[\x7b\"type\":\"person\",\"confidence\":0.92,\"box\":[1,2,3,4]\x7d]\x7d".toList

def samplePost : List Char := " thanks".toList

def sampleObjects : JVal :=
  JVal.jobj [("objects", JVal.jarr [JVal.jobj
    [("type", JVal.jstr "person"),
     ("confidence", JVal.jnum (92 / 100)),
     ("box", JVal.jarr [JVal.jnum 1, JVal.jnum 2, JVal.jnum 3, JVal.jnum 4])]])]

/-- A concrete stand-in for `json.loads` that recognizes the sample
payload. -/
def sampleParse : List Char → Option JVal :=
  fun cs => if cs = sampleBody then some sampleObjects else none

/-! ## Theorems -/

/-- C1 counterexample: with a stop command applied at timestamp 5 as the
entire command state, an inbound command with the equal timestamp 5 is
not ignored: the listener overwrites the stored entry with it.  The
claimed stale-write rejection (apply only when the timestamp is strictly
greater than the last applied one) is absent from `command_callback`. -/
theorem C1_counterexample :
    command_callback 10
        [((5 : ℚ), ⟨some "stop", some 5, some "person detected"⟩)]
        ⟨some "resume", some 5, none⟩ =
      [((5 : ℚ), ⟨some "resume", some 5, none⟩)] := by
  decide

/-- C1 (amended): the Command Listener performs no timestamp comparison
at all.  Every decoded command payload is stored into the
`cloud_commands` dict keyed by its timestamp (current time when the
field is absent): the entry at that key is replaced by the new payload
— even when the timestamp is earlier than or equal to a previously
applied one — and entries at every other key are untouched. -/
theorem C1_amended_store (now : ℚ) (cmds : CloudCommands) (p : CmdPayload)
    (k : ℚ) :
    dictGet (command_callback now cmds p) k =
      if k = p.timestamp?.getD now then some p else dictGet cmds k := by
  unfold command_callback
  exact dictGet_dictInsert cmds (p.timestamp?.getD now) k p

/-- Witness for C1 amended: concrete evaluation of both branches of the
lookup characterization. -/
theorem C1_amended_store_witness :
    dictGet (command_callback 10 [((5 : ℚ), ⟨some "stop", some 5, none⟩)]
        ⟨some "resume", some 3, none⟩) 3 =
      (if (3 : ℚ) = 3 then some ⟨some "resume", some 3, none⟩
       else dictGet [((5 : ℚ), ⟨some "stop", some 5, none⟩)] 3) := by
  have h := C1_amended_store 10 [((5 : ℚ), ⟨some "stop", some 5, none⟩)]
      ⟨some "resume", some 3, none⟩ 3
  simpa using h

/-- C2 counterexample: a stop command applied at timestamp 0 is the only
command state; after 4 seconds merely pass (no resume processed), the
display loop of `capture_video` prunes it, so the stop indication is
gone — `stopped` does not persist under the passage of time. -/
theorem C2_counterexample :
    hasStop [((0 : ℚ), ⟨some "stop", some 0, some "person"⟩)] = true ∧
    prune_commands 4 [((0 : ℚ), ⟨some "stop", some 0, some "person"⟩)] = [] ∧
    hasStop (prune_commands 4
        [((0 : ℚ), ⟨some "stop", some 0, some "person"⟩)]) = false := by
  have h2 : prune_commands 4
      [((0 : ℚ), ⟨some "stop", some 0, some "person"⟩)] = [] := by
    norm_num [prune_commands, List.filter]
  exact ⟨rfl, h2, by rw [h2]; rfl⟩

/-- C2 (amended): the code keeps no sticky stop mode.  A command —
including a stop — survives the display loop's pruning pass at time
`now` exactly when it is less than 3 seconds old; older entries are
removed by the mere passage of time, without any resume command. -/
theorem C2_amended_prune (now : ℚ) (cmds : CloudCommands)
    (e : ℚ × CmdPayload) :
    e ∈ prune_commands now cmds ↔ e ∈ cmds ∧ now - e.1 < 3 := by
  simp [prune_commands, List.mem_filter]

/-- Single-step preservation of the buffer invariant: the bound `N` and
the FIFO accounting equation between taken, buffered and accepted
frames. -/
theorem bufStep_inv {α : Type} (N : ℕ) (s : BufState α) (op : BufOp α)
    (h1 : s.buf.length ≤ N) (h2 : s.taken ++ s.buf = s.accepted) :
    (bufStep N s op).buf.length ≤ N ∧
      (bufStep N s op).taken ++ (bufStep N s op).buf = (bufStep N s op).accepted := by
  cases op with
  | off f =>
    by_cases hfull : s.buf.length < N
    · constructor
      · simp [bufStep, hfull]
        omega
      · simp [bufStep, hfull, ← h2]
    · constructor
      · simpa [bufStep, hfull] using h1
      · simpa [bufStep, hfull] using h2
  | tk =>
    cases hbuf : s.buf with
    | nil =>
      constructor
      · simp [bufStep, hbuf]
      · simpa [bufStep, hbuf] using h2
    | cons f rest =>
      constructor
      · have := h1
        rw [hbuf] at this
        simpa [bufStep, hbuf] using Nat.le_of_succ_le this
      · rw [hbuf] at h2
        simp [bufStep, hbuf, ← h2]

theorem bufRunFrom_inv {α : Type} (N : ℕ) :
    ∀ (ops : List (BufOp α)) (s : BufState α),
      s.buf.length ≤ N → s.taken ++ s.buf = s.accepted →
      (bufRunFrom N s ops).buf.length ≤ N ∧
        (bufRunFrom N s ops).taken ++ (bufRunFrom N s ops).buf =
          (bufRunFrom N s ops).accepted
  | [], s, h1, h2 => ⟨h1, h2⟩
  | op :: rest, s, h1, h2 => by
    have hstep := bufStep_inv N s op h1 h2
    have := bufRunFrom_inv N rest (bufStep N s op) hstep.1 hstep.2
    simpa [bufRunFrom, List.foldl_cons] using this

/-- The accepted frames added by a run are a subsequence of the offered
frames, in offer order. -/
theorem bufRunFrom_accepted {α : Type} (N : ℕ) :
    ∀ (ops : List (BufOp α)) (s : BufState α),
      ∃ t, (bufRunFrom N s ops).accepted = s.accepted ++ t ∧
        t.Sublist (offeredOf ops)
  | [], s => ⟨[], by simp [bufRunFrom], List.nil_sublist _⟩
  | .off f :: rest, s => by
    obtain ⟨t, ht, hsub⟩ := bufRunFrom_accepted N rest (bufStep N s (.off f))
    have hrun : bufRunFrom N s (.off f :: rest) =
        bufRunFrom N (bufStep N s (.off f)) rest := rfl
    have hoff : offeredOf (BufOp.off f :: rest) = f :: offeredOf rest := rfl
    by_cases hfull : s.buf.length < N
    · have hacc : (bufStep N s (BufOp.off f)).accepted = s.accepted ++ [f] := by
        simp [bufStep, hfull]
      refine ⟨f :: t, ?_, ?_⟩
      · rw [hrun, ht, hacc]
        simp
      · rw [hoff]
        exact List.Sublist.cons₂ f hsub
    · have hacc : (bufStep N s (BufOp.off f)).accepted = s.accepted := by
        simp [bufStep, hfull]
      refine ⟨t, ?_, ?_⟩
      · rw [hrun, ht, hacc]
      · rw [hoff]
        exact List.Sublist.cons f hsub
  | .tk :: rest, s => by
    obtain ⟨t, ht, hsub⟩ := bufRunFrom_accepted N rest (bufStep N s .tk)
    have hrun : bufRunFrom N s (.tk :: rest) =
        bufRunFrom N (bufStep N s .tk) rest := rfl
    have hoff : offeredOf (BufOp.tk :: rest) = offeredOf rest := rfl
    have hacc : (bufStep N s BufOp.tk).accepted = s.accepted := by
      cases hbuf : s.buf <;> simp [bufStep, hbuf]
    refine ⟨t, ?_, by rw [hoff]; exact hsub⟩
    rw [hrun, ht, hacc]

/-- C3: for every trace of offers and takes against the bounded frame
queue of capacity `N`, (i) the queue never holds more than `N` frames,
(ii) the frames returned by `take` followed by the frames still
buffered are exactly the accepted (non-dropped) frames in offer order —
so takes return the non-dropped frames FIFO, (iii) the accepted frames
are a subsequence of all offered frames in offer order, and (iv) an
offer against a full queue leaves the state unchanged (the frame is
dropped; the producer is never blocked). -/
theorem C3_frame_buffer {α : Type} (N : ℕ) (ops : List (BufOp α)) :
    (bufRun N ops).buf.length ≤ N ∧
      (bufRun N ops).taken ++ (bufRun N ops).buf = (bufRun N ops).accepted ∧
      ((bufRun N ops).accepted).Sublist (offeredOf ops) ∧
      (∀ (s : BufState α) (f : α), s.buf.length = N → bufStep N s (.off f) = s) := by
  have hinv := bufRunFrom_inv N ops ⟨[], [], []⟩ (by simp) (by simp)
  obtain ⟨t, ht, hsub⟩ := bufRunFrom_accepted N ops ⟨[], [], []⟩
  refine ⟨hinv.1, hinv.2, ?_, ?_⟩
  · rw [bufRun] at *
    simpa [ht] using hsub
  · intro s f hlen
    simp [bufStep, hlen]

/-- Witness for C3: capacity 2, five operations; the third offer is
dropped at capacity, the take returns the first accepted frame. -/
theorem C3_frame_buffer_witness :
    (bufRun 2 [BufOp.off 10, BufOp.off 20, BufOp.off 30, BufOp.tk,
        BufOp.off 40]).buf.length ≤ 2 ∧
      (bufRun 2 [BufOp.off 10, BufOp.off 20, BufOp.off 30, BufOp.tk,
          BufOp.off 40]).taken ++
          (bufRun 2 [BufOp.off 10, BufOp.off 20, BufOp.off 30, BufOp.tk,
              BufOp.off 40]).buf =
        (bufRun 2 [BufOp.off 10, BufOp.off 20, BufOp.off 30, BufOp.tk,
            BufOp.off 40]).accepted ∧
      ((bufRun 2 [BufOp.off 10, BufOp.off 20, BufOp.off 30, BufOp.tk,
          BufOp.off 40]).accepted).Sublist
        (offeredOf [BufOp.off 10, BufOp.off 20, BufOp.off 30, BufOp.tk,
          BufOp.off 40]) ∧
      (∀ (s : BufState ℕ) (f : ℕ), s.buf.length = 2 →
        bufStep 2 s (.off f) = s) :=
  C3_frame_buffer 2 [BufOp.off 10, BufOp.off 20, BufOp.off 30, BufOp.tk,
    BufOp.off 40]

/-- C4: at a publisher tick with the detection channel empty, the
headless publisher makes zero publish calls, but the publisher of
edge-device-video-file-fixed.py — despite logging that the queue is
empty — blocks on `detection_queue.get()` and publishes the batch that
arrives next.  Concrete failing tick: `last_mqtt_publish_time = 0`,
`current_time = 5`, empty queue, one batch arriving later. -/
theorem C4_empty_tick_publishes :
    (mqttTickHeadless 0 5 none).1 = [] ∧
    (mqttTickFileFixed 0 5 [] [⟨0, [], "edge"⟩]).1 = [⟨0, [], "edge"⟩] := by
  refine ⟨?_, ?_⟩ <;> norm_num [mqttTickHeadless, mqttTickFileFixed]

/-- Folding an append-if loop equals filter-then-map. -/
theorem foldl_if_append {α β : Type} (p : α → Prop) [DecidablePred p]
    (g : α → β) :
    ∀ (l : List α) (init : List β),
      l.foldl (fun acc b => if p b then acc ++ [g b] else acc) init =
        init ++ (l.filter fun b => decide (p b)).map g
  | [], init => by simp
  | b :: rest, init => by
    by_cases hb : p b
    · simp [List.foldl_cons, hb, foldl_if_append p g rest]
    · simp [List.foldl_cons, hb, foldl_if_append p g rest]

theorem buildDetections_eq (names : ℕ → String) (raw : List RawBox) :
    buildDetections names raw =
      (raw.filter fun b =>
        decide (b.cls ∈ CLASSES_OF_INTEREST ∧ CONFIDENCE_THRESHOLD < b.conf)).map
        (mkDetection names) := by
  unfold buildDetections
  simpa using foldl_if_append
    (fun b => b.cls ∈ CLASSES_OF_INTEREST ∧ CONFIDENCE_THRESHOLD < b.conf)
    (mkDetection names) raw []

/-- C5: a raw model detection is included in the emitted detection list
exactly when its class id is in the allow-list `CLASSES_OF_INTEREST`
and its confidence strictly exceeds `CONFIDENCE_THRESHOLD` (0.3):
every qualifying raw box yields its detection entry, and every emitted
entry comes from a qualifying raw box. -/
theorem C5_detection_filter (names : ℕ → String) (raw : List RawBox) :
    (∀ b, b ∈ raw →
      (b.cls ∈ CLASSES_OF_INTEREST ∧ CONFIDENCE_THRESHOLD < b.conf) →
      mkDetection names b ∈ buildDetections names raw) ∧
    (∀ d, d ∈ buildDetections names raw →
      ∃ b, b ∈ raw ∧
        (b.cls ∈ CLASSES_OF_INTEREST ∧ CONFIDENCE_THRESHOLD < b.conf) ∧
        d = mkDetection names b) := by
  constructor
  · intro b hb hcond
    rw [buildDetections_eq]
    exact List.mem_map_of_mem _ (List.mem_filter.mpr ⟨hb, by simpa using hcond⟩)
  · intro d hd
    rw [buildDetections_eq] at hd
    obtain ⟨b, hbf, rfl⟩ := List.mem_map.mp hd
    obtain ⟨hbr, hcond⟩ := List.mem_filter.mp hbf
    exact ⟨b, hbr, by simpa using hcond, rfl⟩

/-- Witness for C5: a person box with confidence 0.81 is retained among
raw results that also contain a non-allow-listed class. -/
theorem C5_detection_filter_witness :
    mkDetection (fun _ => "person") ⟨[10, 10, 50, 50], 81 / 100, 0⟩ ∈
      buildDetections (fun _ => "person")
        [⟨[10, 10, 50, 50], 81 / 100, 0⟩, ⟨[0, 0, 5, 5], 95 / 100, 4⟩] :=
  (C5_detection_filter (fun _ => "person")
      [⟨[10, 10, 50, 50], 81 / 100, 0⟩, ⟨[0, 0, 5, 5], 95 / 100, 4⟩]).1
    ⟨[10, 10, 50, 50], 81 / 100, 0⟩ (by simp)
    ⟨by decide, by norm_num [CONFIDENCE_THRESHOLD]⟩

/-- The first emission after state `last` is at least `last + interval`. -/
theorem yoloEmissions_first_ge (interval : ℚ) :
    ∀ (iters : List (ℚ × Bool)) (last t : ℚ) (rest : List ℚ),
      yoloEmissions interval last iters = t :: rest → last + interval ≤ t
  | [], last, t, rest, h => by simp [yoloEmissions] at h
  | (t0, hf) :: iters, last, t, rest, h => by
    by_cases hc : interval ≤ t0 - last ∧ hf = true
    · rw [yoloEmissions, if_pos (by simpa using hc)] at h
      obtain ⟨rfl, -⟩ := List.cons.injEq .. ▸ h
      linarith [hc.1]
    · rw [yoloEmissions, if_neg (by simpa using hc)] at h
      exact yoloEmissions_first_ge interval iters last t rest h

/-- C6: the Detection Worker's emission times are always separated by
at least the configured inference interval: along any sequence of loop
iterations (each giving the wall-clock time and whether the frame queue
yielded a frame), consecutive emitted batches are at least `interval`
apart. -/
theorem C6_inference_interval (interval : ℚ) (last : ℚ)
    (iters : List (ℚ × Bool)) :
    List.Chain' (fun a b => a + interval ≤ b)
      (yoloEmissions interval last iters) := by
  induction iters generalizing last with
  | nil => simp [yoloEmissions]
  | cons it rest ih =>
    obtain ⟨t0, hf⟩ := it
    by_cases hc : interval ≤ t0 - last ∧ hf = true
    · rw [yoloEmissions, if_pos (by simpa using hc)]
      rw [List.chain'_cons']
      refine ⟨?_, ih t0⟩
      intro b hb
      cases hemi : yoloEmissions interval t0 rest with
      | nil => simp [hemi] at hb
      | cons h0 hrest =>
        rw [hemi] at hb
        simp at hb
        subst hb
        exact yoloEmissions_first_ge interval rest t0 h0 hrest hemi
    · rw [yoloEmissions, if_neg (by simpa using hc)]
      exact ih last

theorem findFirst_append_not_mem (c : Char) (xs ys : List Char) (h : c ∉ xs) :
    findFirst c (xs ++ ys) = (findFirst c ys).map (· + xs.length) := by
  induction xs with
  | nil => cases hy : findFirst c ys <;> simp [hy]
  | cons x xs ih =>
    have hxc : ¬x = c := by
      intro he
      exact h (by simp [he])
    have hmem : c ∉ xs := fun hm => h (List.mem_cons_of_mem _ hm)
    rw [List.cons_append]
    show (if x = c then some 0 else (findFirst c (xs ++ ys)).map (· + 1)) = _
    rw [if_neg hxc, ih hmem]
    cases hy : findFirst c ys with
    | none => simp [hy]
    | some i =>
      simp [hy]
      omega

theorem findFirst_cons_self (c : Char) (xs : List Char) :
    findFirst c (c :: xs) = some 0 := by
  simp [findFirst]

/-- Locating the braces in a response made of brace-free prose around a
body that starts with the opening and ends with the closing brace: the
slice from the first opening brace to the last closing brace is exactly
the body. -/
theorem extract_surrounded (pre body post : List Char)
    (hpre : '{' ∉ pre) (hpost : '}' ∉ post)
    (hhead : body.head? = some '{') (hlast : body.getLast? = some '}') :
    findFirst '{' (pre ++ body ++ post) = some pre.length ∧
    findLast '}' (pre ++ body ++ post) = some (pre.length + body.length - 1) ∧
    pySlice (pre ++ body ++ post) pre.length (pre.length + body.length) = body := by
  obtain ⟨b, mid, rfl⟩ : ∃ b mid, body = b :: mid := by
    cases body with
    | nil => simp at hhead
    | cons b mid => exact ⟨b, mid, rfl⟩
  have hb : b = '{' := by simpa using hhead
  subst hb
  obtain ⟨rb, hrb⟩ : ∃ rb, ('{' :: mid).reverse = '}' :: rb := by
    have hrh : ('{' :: mid).reverse.head? = some '}' := by
      rw [List.head?_reverse]
      exact hlast
    cases hc : ('{' :: mid).reverse with
    | nil =>
      rw [hc] at hrh
      simp at hrh
    | cons y ys =>
      rw [hc] at hrh
      simp at hrh
      exact ⟨ys, by rw [hrh]⟩
  refine ⟨?_, ?_, ?_⟩
  · rw [List.append_assoc, findFirst_append_not_mem _ _ _ hpre,
      List.cons_append, findFirst_cons_self]
    simp
  · rw [findLast, List.append_assoc, List.reverse_append, List.reverse_append,
      hrb, List.append_assoc, findFirst_append_not_mem _ _ _ (by simpa using hpost)]
    have hfc : ('}' :: rb) ++ pre.reverse = '}' :: (rb ++ pre.reverse) := rfl
    rw [hfc, findFirst_cons_self]
    simp
    omega
  · rw [pySlice, List.append_assoc, List.drop_left]
    have h2 : pre.length + ('{' :: mid).length - pre.length =
        ('{' :: mid).length := by omega
    rw [h2, List.take_left]

/-- C7: the response parser of `detect_objects_with_bedrock` takes the
substring from the first opening brace to the last closing brace and
hands it to the JSON parser; when no opening brace exists, no closing
brace exists, the last closing brace precedes the first opening brace,
or the parser fails, the result is the empty detection set
`{"objects": []}` (never an exception); when the parser succeeds on the
slice its value is returned unchanged — in particular, prose around a
single JSON object yields exactly that object's value. -/
theorem C7_bedrock_response_parsing (parse : List Char → Option JVal) :
    (∀ content, findFirst '{' content = none →
      detect_objects_parse parse content = emptyObjects) ∧
    (∀ content, findLast '}' content = none →
      detect_objects_parse parse content = emptyObjects) ∧
    (∀ content s l, findFirst '{' content = some s →
      findLast '}' content = some l → ¬s < l + 1 →
      detect_objects_parse parse content = emptyObjects) ∧
    (∀ content s l, findFirst '{' content = some s →
      findLast '}' content = some l → s < l + 1 →
      detect_objects_parse parse content =
        (match parse (pySlice content s (l + 1)) with
         | some j => j
         | none => emptyObjects)) ∧
    (∀ pre body post j, '{' ∉ pre → '}' ∉ post →
      body.head? = some '{' → body.getLast? = some '}' →
      parse body = some j →
      detect_objects_parse parse (pre ++ body ++ post) = j) := by
  have main4 : ∀ content s l, findFirst '{' content = some s →
      findLast '}' content = some l → s < l + 1 →
      detect_objects_parse parse content =
        (match parse (pySlice content s (l + 1)) with
         | some j => j
         | none => emptyObjects) := by
    intro content s l hs hl hlt
    simp [detect_objects_parse, hs, hl, hlt]
  refine ⟨?_, ?_, ?_, main4, ?_⟩
  · intro content h
    unfold detect_objects_parse
    rw [h]
  · intro content h
    unfold detect_objects_parse
    rw [h]
    cases hf : findFirst '{' content <;> rfl
  · intro content s l hs hl hlt
    simp [detect_objects_parse, hs, hl, hlt]
  · intro pre body post j hpre hpost hhead hlast hparse
    obtain ⟨hf, hl, hslice⟩ := extract_surrounded pre body post hpre hpost hhead hlast
    have hblen : 1 ≤ body.length := by
      cases body with
      | nil => simp at hhead
      | cons b mid => simp
    have harith : pre.length + body.length - 1 + 1 = pre.length + body.length := by
      omega
    have hlt : pre.length < pre.length + body.length - 1 + 1 := by omega
    rw [main4 (pre ++ body ++ post) pre.length (pre.length + body.length - 1) hf hl hlt,
      harith, hslice, hparse]

/-- Witness for C7: the spec's §8 scenario, prose around one JSON
object with a person at confidence 0.92, parsed to exactly that
object's value. -/
theorem C7_bedrock_response_parsing_witness :
    detect_objects_parse sampleParse (samplePre ++ sampleBody ++ samplePost) =
      sampleObjects :=
  (C7_bedrock_response_parsing sampleParse).2.2.2.2 samplePre sampleBody
    samplePost sampleObjects (by decide) (by decide) (by decide) (by decide)
    (by simp [sampleParse])

/-- The accumulation loop of `send_command_to_edge`, from an arbitrary
accumulator. -/
theorem criticalScan_foldl :
    ∀ (objs : List DetObject) (b : Bool) (l : List String),
      objs.foldl (fun acc o =>
          if isCriticalObj o then (true, acc.2 ++ [objTypeLower o]) else acc)
        (b, l) =
      (b || objs.any (fun o => decide (isCriticalObj o)),
       l ++ (objs.filter (fun o => decide (isCriticalObj o))).map objTypeLower)
  | [], b, l => by simp
  | o :: rest, b, l => by
    by_cases ho : isCriticalObj o
    · simp [List.foldl_cons, ho, criticalScan_foldl rest]
    · simp [List.foldl_cons, ho, criticalScan_foldl rest]

theorem criticalScan_eq (objs : List DetObject) :
    criticalScan objs =
      (objs.any (fun o => decide (isCriticalObj o)),
       (objs.filter (fun o => decide (isCriticalObj o))).map objTypeLower) := by
  unfold criticalScan
  simpa using criticalScan_foldl objs false []

/-- C8: `send_command_to_edge` issues a command exactly when some
returned object has a critical type (after lower-casing) and confidence
strictly above 0.7; the issued command is a `stop` whose reason string
is the comma-separated list of the critical types found, in order, and
whose timestamp is the current time. -/
theorem C8_stop_policy (objs : List DetObject) (now : ℤ) :
    ((send_command_to_edge objs now).isSome ↔
      ∃ o ∈ objs, objTypeLower o ∈ criticalSet ∧ 7 / 10 < objConf o) ∧
    send_command_to_edge objs now =
      (if objs.any (fun o => decide (isCriticalObj o)) then
        some ⟨"stop",
          "Critical objects detected: " ++ String.intercalate ", "
            ((objs.filter (fun o => decide (isCriticalObj o))).map objTypeLower),
          now⟩
      else none) := by
  have heq := criticalScan_eq objs
  have h2 : send_command_to_edge objs now =
      (if objs.any (fun o => decide (isCriticalObj o)) then
        some ⟨"stop",
          "Critical objects detected: " ++ String.intercalate ", "
            ((objs.filter (fun o => decide (isCriticalObj o))).map objTypeLower),
          now⟩
      else none) := by
    rw [send_command_to_edge, heq]
  refine ⟨?_, h2⟩
  constructor
  · intro hs
    rw [h2] at hs
    by_cases h : objs.any (fun o => decide (isCriticalObj o))
    · obtain ⟨o, ho, hp⟩ := List.any_eq_true.mp h
      exact ⟨o, ho, by simpa [isCriticalObj] using hp⟩
    · simp [h] at hs
  · rintro ⟨o, ho, hp⟩
    have h : objs.any (fun o => decide (isCriticalObj o)) = true :=
      List.any_eq_true.mpr ⟨o, ho, by simpa [isCriticalObj] using hp⟩
    rw [h2]
    simp [h]

/-- C9: for every processed frame, the persistence step runs regardless
of the command decision (the stored pair is a function of the frame
data alone), the frame goes to the object store and the record to the
record store under the freshly generated frame identifier, and the
record's `ttl` is its `timestamp` plus 7 days, the timestamp being the
truncated frame capture time, with the detection results stored with
`timestamp` and `source` metadata added and numeric fields exact. -/
theorem C9_persist_always (frame_id hourPath : String) (d : JDict)
    (objs : List DetObject) (ts : ℚ) (now : ℤ) :
    (process_frame frame_id hourPath d objs ts now).1 =
      store_frame_and_detection frame_id hourPath d ts ∧
    (∀ (objs2 : List DetObject) (now2 : ℤ),
      (process_frame frame_id hourPath d objs ts now).1 =
        (process_frame frame_id hourPath d objs2 ts now2).1) ∧
    (store_frame_and_detection frame_id hourPath d ts).2.ttl =
      (store_frame_and_detection frame_id hourPath d ts).2.timestamp +
        7 * 24 * 60 * 60 ∧
    (store_frame_and_detection frame_id hourPath d ts).2.frameId = frame_id ∧
    (store_frame_and_detection frame_id hourPath d ts).2.timestamp = pyInt ts ∧
    (store_frame_and_detection frame_id hourPath d ts).2.frameS3Path =
      frameKeyOf hourPath ts frame_id ∧
    (store_frame_and_detection frame_id hourPath d ts).1 =
      ⟨BUCKET_NAME, frameKeyOf hourPath ts frame_id⟩ ∧
    (store_frame_and_detection frame_id hourPath d ts).2.detectionResults =
      dictInsert (dictInsert d "timestamp" (JVal.jnum (pyInt ts))) "source"
        (JVal.jstr "cloud") :=
  ⟨rfl, fun _ _ => rfl, rfl, rfl, rfl, rfl, rfl, rfl⟩

/-- C10: an inbound command whose payload decodes but has no
`timestamp` field is not discarded: `command_callback` stores it under
the current wall-clock time `now`, so it is retrievable at that key. -/
theorem C10_default_timestamp (now : ℚ) (cmds : CloudCommands)
    (p : CmdPayload) (h : p.timestamp? = none) :
    dictGet (command_callback now cmds p) now = some p := by
  unfold command_callback
  rw [h]
  simp [dictGet_dictInsert]

/-- Witness for C10: a concrete payload without a timestamp field,
stored at wall-clock time 7 into an empty command state. -/
theorem C10_default_timestamp_witness :
    (⟨some "stop", none, none⟩ : CmdPayload).timestamp? = none ∧
    dictGet (command_callback 7 [] ⟨some "stop", none, none⟩) 7 =
      some ⟨some "stop", none, none⟩ :=
  ⟨rfl, C10_default_timestamp 7 [] ⟨some "stop", none, none⟩ rfl⟩

end ADRVE
